import Mathlib

/-!
Verification of the sql-unit annotation-to-SQL compilation pipeline.

A shallow embedding of the core of the `sql_unit` Python package
(`annotations.py`, `types.py`, `utils.py`, `model.py`) together with proofs
about the claims of its specification.

Python strings are modelled as `List Char` (one entry per code point, as in
CPython).  Python `dict`s are modelled as association lists with
insertion-order semantics: writing to an existing key replaces the value in
place, writing to a fresh key appends at the end, exactly like CPython 3.7+
dicts.  Fallible Python code is modelled with `Except PyErr`.
-/

set_option autoImplicit false

namespace SqlUnit

/-- Python strings, one list entry per code point. -/
abbrev PyStr := List Char

/-- Shorthand turning a Lean string literal into the `PyStr` model. -/
def pys (s : String) : PyStr := s.data

/-- Python exceptions relevant to the embedded code.  `valueError` also covers
pydantic's `ValidationError`, which subclasses `ValueError`; the `tag` keeps
the raise site (dynamic parts of Python's f-string messages are abstracted). -/
inductive PyErr where
  | valueError (tag : String)
  | assertionError (tag : String)
  | indexError
  | typeError (tag : String)
  | attributeError (tag : String)
deriving Repr, DecidableEq

/-- `isinstance(e, ValueError)`: which modelled exceptions the
`except ValueError` handlers of the source catch. -/
def PyErr.isValueError : PyErr → Bool
  | .valueError _ => true
  | _ => false

/-- Whitespace characters for Python's default `str.strip`/`lstrip`/`rstrip`
(`str.isspace`): the ASCII whitespace and separator controls plus the common
Unicode line/paragraph separators.  (The rarer Unicode `Zs` spaces are omitted;
no claim depends on them.) -/
def isPySpace (c : Char) : Bool :=
  c = ' ' || c = '\t' || c = '\n' || c = '\r' || c = '\x0b' || c = '\x0c' ||
  c = '\x1c' || c = '\x1d' || c = '\x1e' || c = '\x1f' || c = '\x85' ||
  c = '\xa0' || c = ' ' || c = ' '

/-- Line boundaries of Python's `str.splitlines` (besides the `"\r\n"` pair,
handled separately). -/
def isLineBreak (c : Char) : Bool :=
  c = '\n' || c = '\r' || c = '\x0b' || c = '\x0c' ||
  c = '\x1c' || c = '\x1d' || c = '\x1e' || c = '\x85' ||
  c = ' ' || c = ' '

/-- `str.lstrip()`. -/
def pyLstrip (s : PyStr) : PyStr := s.dropWhile isPySpace

/-- `str.rstrip()`. -/
def pyRstrip (s : PyStr) : PyStr := (s.reverse.dropWhile isPySpace).reverse

/-- `str.strip()`. -/
def pyStrip (s : PyStr) : PyStr := pyRstrip (pyLstrip s)

/-- Python truthiness of a string: `bool(s)` is `False` iff `s` is empty.
`not line.strip()` blank-line tests are `isBlank line`. -/
def isBlank (s : PyStr) : Bool := pyStrip s = []

/-- Prepend a character to the first line of an already-split tail (the
non-boundary case of `splitlines`). -/
def consHead (c : Char) : List PyStr → List PyStr
  | [] => [[c]]
  | l :: ls => (c :: l) :: ls

/-- `str.splitlines()`.  `"\r\n"` counts as a single boundary; a trailing
boundary produces no empty final line. -/
def splitlines : PyStr → List PyStr
  | [] => []
  | c :: t =>
    if c = '\r' then
      match t with
      | d :: t2 => if d = '\n' then [] :: splitlines t2 else [] :: splitlines (d :: t2)
      | [] => [[]]
    else if isLineBreak c then [] :: splitlines t
    else consHead c (splitlines t)

/-- `str.split(sep)` for a one-character separator: splits at every
occurrence, keeping empty pieces (`"".split` gives `[""]`). -/
def pySplitChar (sep : Char) : PyStr → List PyStr
  | [] => [[]]
  | c :: t =>
    if c = sep then [] :: pySplitChar sep t
    else
      match pySplitChar sep t with
      | [] => [[c]]
      | l :: ls => (c :: l) :: ls

/-- The Python slice `l[1:-1]` on a list. -/
def sliceInterior {α : Type} (l : List α) : List α := (l.drop 1).dropLast

/-- Number of positions of `hay` at which `needle` starts (occurrences may
overlap).  `needle` is meant to be nonempty. -/
def substrCount (needle hay : PyStr) : Nat :=
  (List.range (hay.length + 1)).countP (fun i => needle.isPrefixOf (hay.drop i))

/-- Python's substring test `needle in hay`. -/
def isSubstrOf (needle hay : PyStr) : Bool :=
  (List.range (hay.length + 1)).any (fun i => needle.isPrefixOf (hay.drop i))

section Dict

variable {α : Type}

/-- Insertion-ordered dictionary model: an association list with unique keys
maintained by `dictInsert`. -/
abbrev Dict (α : Type) := List (PyStr × α)

/-- `k in d` for a Python dict. -/
def dictContains (d : Dict α) (k : PyStr) : Bool := d.any (fun kv => kv.1 = k)

/-- `d.get(k)` / `d[k]`. -/
def dictLookup (d : Dict α) (k : PyStr) : Option α :=
  match d.find? (fun kv => kv.1 = k) with
  | some kv => some kv.2
  | none => none

/-- `d[k] = v`: replace in place if `k` is present, else append. -/
def dictInsert (d : Dict α) (k : PyStr) (v : α) : Dict α :=
  if dictContains d k then
    d.map (fun kv => if kv.1 = k then (k, v) else kv)
  else d ++ [(k, v)]

/-- `d |= e` / `d.update(e)`: fold the entries of `e` into `d`. -/
def dictMerge (d e : Dict α) : Dict α :=
  e.foldl (fun acc kv => dictInsert acc kv.1 kv.2) d

/-- `list(d.keys())`. -/
def dictKeys (d : Dict α) : List PyStr := d.map Prod.fst

end Dict

/-- Native Python values as produced by the YAML scalar loader and
`ast.literal_eval` (`model.py` calls them `Any`).  Floats are carried by their
`repr` string: the embedded code never computes with them, it only prints
them back, so the representation is adequate and exact. -/
inductive PyVal where
  | str (s : PyStr)
  | int (n : Int)
  | float (rep : PyStr)
  | bool (b : Bool)
  | none
  | list (items : List PyVal)
  | dict (items : List (PyStr × PyVal))
deriving Repr

mutual

/-- `utils.native_to_sql`: convert a native Python object to its SQL text.
Faithful quirks: Python's `bool` is a subclass of `int`, so `True`/`False`
hit the `isinstance(obj, (int, float))` branch and are rendered by `str()` as
`True`/`False` (the later `elif isinstance(obj, bool)` branch is dead code);
a `dict` falls through to `raise TypeError`. -/
def nativeToSql : PyVal → Except PyErr PyStr
  | .str s => .ok ('\'' :: s ++ ['\''])
  | .int n => .ok (pys (toString n))
  | .bool b => .ok (if b then pys "True" else pys "False")
  | .float rep => .ok rep
  | .none => .ok (pys "null")
  | .list items => do
      let parts ← nativeToSqlList items
      .ok ('[' :: List.intercalate (pys ", ") parts ++ [']'])
  | .dict _ => .error (.typeError "Unsupported type for SQL conversion")

/-- The generator expression inside the `list` branch of `native_to_sql`. -/
def nativeToSqlList : List PyVal → Except PyErr (List PyStr)
  | [] => .ok []
  | v :: vs => do
      let s ← nativeToSql v
      let ss ← nativeToSqlList vs
      .ok (s :: ss)

end

/-- `utils.native_to_sql_typedef` applied to `type(v)` of a row value.
`type(True) is bool` (not `int`), so booleans map to `"boolean"`;
`type(None)` maps to `"null"`; a `dict` raises `TypeError`. -/
def nativeToSqlTypedef : PyVal → Except PyErr PyStr
  | .str _ => .ok (pys "string")
  | .int _ => .ok (pys "int")
  | .float _ => .ok (pys "float")
  | .list _ => .ok (pys "array")
  | .bool _ => .ok (pys "boolean")
  | .none => .ok (pys "null")
  | .dict _ => .error (.typeError "Unsupported type for SQL type definition")

/-- `types.SQLUnitMockType`: the enumeration of Jinja data types usable as
mocks. -/
inductive SQLUnitMockType where
  | table
  | mapping
  | sequence
  | int
  | float
  | str
  | bool
deriving Repr, DecidableEq

/-- `types.SQLUnitMockType.default_factory`, already applied to the mock's
name: the string each type's default factory returns. -/
def SQLUnitMockType.defaultFactory : SQLUnitMockType → PyStr → PyStr
  | .table, name => '"' :: name ++ pys "_table\""
  | .mapping, _ => pys "\x7b\x7d"
  | .sequence, _ => pys "[]"
  | .int, _ => pys "0"
  | .float, _ => pys "0.0"
  | .str, name => '"' :: name ++ ['"']
  | .bool, _ => pys "false"

/-- Is `c` an ASCII decimal digit? -/
def isDigitChar (c : Char) : Bool := '0' ≤ c && c ≤ '9'

/-- Value of a digit string (the digits are already checked). -/
def digitsToNat (s : PyStr) : Nat :=
  s.foldl (fun acc c => acc * 10 + (c.toNat - '0'.toNat)) 0

/-- Modelled from the spec: `ast.literal_eval` of the Python standard library
(an external collaborator: §4.4 says the factory's string output "is parsed
back into a native literal").  It evaluates a string that contains a Python
literal: a quoted string, an integer or float (optionally negated), `True`,
`False`, `None`, and (as needed here) the empty display `{}` or `[]`.
Anything else — in particular a bare name such as `false` — raises
`ValueError("malformed node or string: ...")`.  Escapes inside string
literals are not modelled (the inputs in scope are mock names matching
`[A-Za-z0-9_.-]+`); a quoted literal whose body contains a quote or a
backslash is conservatively rejected. -/
def pyLiteralEval (s : PyStr) : Except PyErr PyVal :=
  if s = pys "True" then .ok (.bool true)
  else if s = pys "False" then .ok (.bool false)
  else if s = pys "None" then .ok .none
  else if s = pys "\x7b\x7d" then .ok (.dict [])
  else if s = pys "[]" then .ok (.list [])
  else
    match s with
    | '"' :: rest =>
      if rest ≠ [] && rest.getLast? = some '"' &&
          rest.dropLast.all (fun c => c ≠ '"' && c ≠ '\\') then
        .ok (.str rest.dropLast)
      else .error (.valueError "malformed node or string")
    | '\'' :: rest =>
      if rest ≠ [] && rest.getLast? = some '\'' &&
          rest.dropLast.all (fun c => c ≠ '\'' && c ≠ '\\') then
        .ok (.str rest.dropLast)
      else .error (.valueError "malformed node or string")
    | _ =>
      let (neg, digits) :=
        match s with
        | '-' :: t => (true, t)
        | t => (false, t)
      if digits ≠ [] && digits.all isDigitChar then
        .ok (.int (if neg then -(digitsToNat digits : Int) else digitsToNat digits))
      else
        match pySplitChar '.' digits with
        | [intPart, fracPart] =>
          if intPart ≠ [] && fracPart ≠ [] &&
              intPart.all isDigitChar && fracPart.all isDigitChar then
            .ok (.float s)
          else .error (.valueError "malformed node or string")
        | _ => .error (.valueError "malformed node or string")

/-- `len(line) - len(line.lstrip())`: the leading-whitespace width of a line
(`annotations.get_comments`, line 27). -/
def indentWidth (line : PyStr) : Nat := line.length - (pyLstrip line).length

/-- `"\n".join(...)`: interleave a newline between the pieces. -/
def pyJoinNL : List PyStr → PyStr
  | [] => []
  | [l] => l
  | l :: ls => l ++ '\n' :: pyJoinNL ls

/-- `min((len(line) - len(line.lstrip())) for line in nonempty_lines)`:
Python's `min` of the indent widths of a nonempty list `l :: ls`. -/
def minIndentOf (l : PyStr) (ls : List PyStr) : Nat :=
  ls.foldl (fun acc line => min acc (indentWidth line)) (indentWidth l)

/-- The indentation/whitespace post-processing of `annotations.get_comments`
(its lines 22–31): split into lines, drop blank lines, compute the minimum
leading-whitespace width over the (non-blank) lines, slice that many leading
characters off every line, then re-split and strip trailing whitespace per
line.  Returns the empty string when no non-blank line remains. -/
def normalizeComments (s : PyStr) : PyStr :=
  let lines := splitlines s
  let nonemptyLines := lines.filter (fun line => ¬ isBlank line)
  match nonemptyLines with
  | [] => []
  | l :: ls =>
    let minIndent := minIndentOf l ls
    let normalized := pyJoinNL ((l :: ls).map (List.drop minIndent))
    pyJoinNL ((splitlines normalized).map pyRstrip)

/-! ## A small backtracking regex engine

`model.py` uses three `re` patterns, all matched from position 0
(`Pattern.match`).  Each is a plain sequence of atoms: literals
(case-sensitive or not), single-character classes under `?`-free quantifiers
(`once`, greedy `*`, greedy `+`, lazy `+?`), and the `$` anchor.  The engine
below reproduces Python's backtracking order exactly: atoms are tried left to
right, a greedy quantifier tries the longest repetition first and shortens
only after every continuation fails, a lazy quantifier tries the shortest
first and lengthens likewise. -/

/-- Quantifier of a character-class atom. -/
inductive RQuant where
  | once
  | starGreedy
  | plusGreedy
  | plusLazy
deriving Repr, DecidableEq

/-- One atom of a regex sequence. -/
inductive RAtom where
  /-- A case-sensitive literal. -/
  | lit (s : PyStr)
  /-- A case-insensitive literal (`re.IGNORECASE`). -/
  | litCI (s : PyStr)
  /-- A character class under a quantifier. -/
  | cls (p : Char → Bool) (q : RQuant)
  /-- The `$` anchor without `re.MULTILINE`: end of string, or just before a
  single trailing newline. -/
  | endAnchor

/-- First `f k` that is `some`, over `ks` in order. -/
def firstSome {β : Type} (ks : List Nat) (f : Nat → Option β) : Option β :=
  match ks with
  | [] => none
  | k :: rest =>
    match f k with
    | some b => some b
    | none => firstSome rest f

/-- Case-insensitive prefix test (ASCII folding suffices for the literals
`with` and `as` used under `re.IGNORECASE`). -/
def ciPrefix : PyStr → PyStr → Bool
  | [], _ => true
  | _ :: _, [] => false
  | a :: s, b :: t => a.toLower = b.toLower && ciPrefix s t

/-- Run a sequence of atoms against `input`, returning — for the first match
in Python's backtracking order — the number of characters each atom
consumed. -/
def runAtoms : List RAtom → PyStr → Option (List Nat)
  | [], _ => some []
  | .lit s :: rest, input =>
    if s.isPrefixOf input then
      (runAtoms rest (input.drop s.length)).map (s.length :: ·)
    else none
  | .litCI s :: rest, input =>
    if ciPrefix s input then
      (runAtoms rest (input.drop s.length)).map (s.length :: ·)
    else none
  | .cls p .once :: rest, input =>
    match input with
    | c :: t => if p c then (runAtoms rest t).map (1 :: ·) else none
    | [] => none
  | .cls p .starGreedy :: rest, input =>
    let n := (input.takeWhile p).length
    firstSome ((List.range (n + 1)).map (n - ·))
      (fun k => (runAtoms rest (input.drop k)).map (k :: ·))
  | .cls p .plusGreedy :: rest, input =>
    let n := (input.takeWhile p).length
    firstSome ((List.range n).map (n - ·))
      (fun k => (runAtoms rest (input.drop k)).map (k :: ·))
  | .cls p .plusLazy :: rest, input =>
    firstSome ((List.range input.length).map (· + 1))
      (fun k =>
        if (input.take k).all p then
          (runAtoms rest (input.drop k)).map (k :: ·)
        else none)
  | .endAnchor :: rest, input =>
    if input = [] || input = ['\n'] then (runAtoms rest input).map (0 :: ·)
    else none

/-- Total characters consumed by a match. -/
def matchLength (lens : List Nat) : Nat := lens.foldl (· + ·) 0

/-- The span of atom number `i` (0-based): its start offset and length. -/
def atomSpan (lens : List Nat) (i : Nat) : Nat × Nat :=
  (matchLength (lens.take i), (lens.drop i).headD 0)

/-- The text captured by atom number `i`. -/
def atomText (lens : List Nat) (i : Nat) (input : PyStr) : PyStr :=
  let (start, len) := atomSpan lens i
  (input.drop start).take len

/-- `\s` of Python `re` on `str` patterns (Unicode whitespace; same set as
`str.strip`). -/
def reWhitespace (c : Char) : Bool := isPySpace c

/-- The character class `[A-Za-z0-9_.-]` of the identifier patterns. -/
def isIdentChar (c : Char) : Bool :=
  ('A' ≤ c && c ≤ 'Z') || ('a' ≤ c && c ≤ 'z') || ('0' ≤ c && c ≤ '9') ||
  c = '_' || c = '.' || c = '-'

/-- `.` without `re.DOTALL`: any character but a newline. -/
def dotNoNL (c : Char) : Bool := c ≠ '\n'

/-- `.` under `re.DOTALL`: any character. -/
def dotAll (_ : Char) : Bool := true

/-- `SQLUNIT_IDENTIFIER_PATTERN`:
`^sql\-unit\.(?P<type>.+?) \"(?P<identifier>[A-Za-z0-9_.-]+)\"$`. -/
def identifierAtoms : List RAtom :=
  [.lit (pys "sql-unit."), .cls dotNoNL .plusLazy, .lit (pys " \""),
   .cls isIdentChar .plusGreedy, .lit (pys "\""), .endAnchor]

/-- `SQLUNIT_IDENTIFIER_PATTERN.match(key)`, returning the `type` and
`identifier` groups on success. -/
def matchIdentifier (key : PyStr) : Option (PyStr × PyStr) :=
  (runAtoms identifierAtoms key).map
    (fun lens => (atomText lens 1 key, atomText lens 3 key))

/-- `SQLUNIT_GIVEN_PATTERN`: `^given \"(?P<name>[A-Za-z0-9_.-]+)\"$`. -/
def givenAtoms : List RAtom :=
  [.lit (pys "given \""), .cls isIdentChar .plusGreedy, .lit (pys "\""), .endAnchor]

/-- `SQLUNIT_GIVEN_PATTERN.match(key)`, returning the `name` group. -/
def matchGiven (key : PyStr) : Option PyStr :=
  (runAtoms givenAtoms key).map (fun lens => atomText lens 1 key)

/-- The `leading_with_pattern` of `SQLUnitTestCase.compile`:
`^\s*(with)\s+.+?\s+as\s+\(.+?\)` with `re.IGNORECASE | re.DOTALL`. -/
def leadingWithAtoms : List RAtom :=
  [.cls reWhitespace .starGreedy, .litCI (pys "with"),
   .cls reWhitespace .plusGreedy, .cls dotAll .plusLazy,
   .cls reWhitespace .plusGreedy, .litCI (pys "as"),
   .cls reWhitespace .plusGreedy, .lit (pys "("),
   .cls dotAll .plusLazy, .lit (pys ")")]

/-- `leading_with_pattern.match(source_code)`: the length of the match, if
any.  Since the pattern is anchored at `^` and `re.MULTILINE` is off,
`leading_with_pattern.sub("", s)` removes exactly this prefix. -/
def leadingWithMatch (s : PyStr) : Option Nat :=
  (runAtoms leadingWithAtoms s).map matchLength

/-! ## `model.py`: tables, mocks, sources, test cases -/

/-- `model.YAMLTable`: `rows` (each row a dict of column name to value) and
`columns` (ordered dict of column name to SQL type name).  A bare structure;
pydantic's construction-time validation is `YAMLTable.make`. -/
structure YAMLTable where
  rows : List (Dict PyVal)
  columns : Dict PyStr
deriving Repr

/-- Constructing `YAMLTable(rows=…, columns=…)` through pydantic.
`columns` is typed `dict[str, str]`, so passing `None` (as
`empty_mock_table` does for a mock without a schema) fails type validation
with a `ValidationError` — a `ValueError` subclass.  Otherwise the
`validate_columns` model validator runs: empty columns are rejected, then
every row's key set must equal the column key set. -/
def YAMLTable.make (rows : List (Dict PyVal)) (columns : Option (Dict PyStr)) :
    Except PyErr YAMLTable :=
  match columns with
  | Option.none => .error (.valueError "ValidationError: columns is not a valid dict")
  | some cols =>
    if cols = [] then
      .error (.valueError "Columns must be defined for a YAMLTable.")
    else if rows.all (fun row =>
        (dictKeys row).all (fun k => dictContains cols k) &&
        (dictKeys cols).all (fun k => dictContains row k)) then
      .ok ⟨rows, cols⟩
    else
      .error (.valueError "Row does not match defined columns")

/-- `YAMLTable.empty_mock_table`: `cls(rows=[], columns=mock_table.columns)`.
Note that the mock's `columns` may be `None` (every non-table mock), in which
case construction raises. -/
def YAMLTable.emptyMockTable (columns : Option (Dict PyStr)) : Except PyErr YAMLTable :=
  YAMLTable.make [] columns

/-- Modelled from the spec: the external YAML-equivalent structured-document
parser applied to one pipe-table cell (§6: "parses YAML-equivalent text into
nested scalar/mapping/sequence values", so "integers, floats, booleans,
strings, null all parse naturally", §4.5).  A minimal scalar model: empty
cells and `null`/`~` give null, `true`/`false` booleans, digit strings
integers, digits-dot-digits floats, everything else the string itself. -/
def yamlLoadScalar (s : PyStr) : PyVal :=
  if s = [] || s = pys "null" || s = pys "~" then .none
  else if s = pys "true" then .bool true
  else if s = pys "false" then .bool false
  else
    let (neg, digits) :=
      match s with
      | '-' :: t => (true, t)
      | t => (false, t)
    if digits ≠ [] && digits.all isDigitChar then
      .int (if neg then -(digitsToNat digits : Int) else digitsToNat digits)
    else
      match pySplitChar '.' digits with
      | [intPart, fracPart] =>
        if intPart ≠ [] && fracPart ≠ [] &&
            intPart.all isDigitChar && fracPart.all isDigitChar then
          .float s
        else .str s
      | _ => .str s

/-- The cells of one pipe-table line: `line.split("|")[1:-1]`, each stripped
(`YAMLTable.from_string`, lines 165 and 181). -/
def pipeCells (line : PyStr) : List PyStr :=
  (sliceInterior (pySplitChar '|' line)).map pyStrip

/-- Split `s` at the first occurrence of `sep` (Python
`s.split(sep, 1)` when `sep` occurs). -/
def splitFirstOn (sep : PyStr) : PyStr → Option (PyStr × PyStr)
  | [] => if sep = [] then some ([], []) else Option.none
  | c :: t =>
    if sep.isPrefixOf (c :: t) then some ([], (c :: t).drop sep.length)
    else
      match splitFirstOn sep t with
      | some (before, after) => some (c :: before, after)
      | Option.none => Option.none

/-- The inline annotation value of a header cell:
`"" if "::" not in col else col.split("::", 1)[-1].strip()`. -/
def headerAnnotValue (col : PyStr) : PyStr :=
  match splitFirstOn (pys "::") col with
  | some (_, after) => pyStrip after
  | Option.none => []

/-- Characters allowed on the separator line: `c in "|- "`. -/
def isSeparatorChar (c : Char) : Bool := c = '|' || c = '-' || c = ' '

/-- One data row of the pipe table: values are YAML-parsed cell texts zipped
with the header's column names (`zip` truncates at the shorter side, and the
`map` of cell parses is lazy, so unzipped cells are never parsed); the row
dict is built in order with duplicate column names collapsing
first-position/last-value like a Python dict comprehension. -/
def buildRow (columns : List PyStr) (line : PyStr) : Dict PyVal :=
  (columns.zip (pipeCells line)).foldl
    (fun d cv => dictInsert d cv.1 (yamlLoadScalar cv.2)) []

/-- Schema inference from the first row:
`{col: utils.native_to_sql_typedef(type(val)) for col, val in rows[0].items()}`. -/
def inferSchema (row : Dict PyVal) : Except PyErr (Dict PyStr) :=
  row.foldlM
    (fun acc cv => do
      let ty ← nativeToSqlTypedef cv.2
      pure (dictInsert acc cv.1 ty))
    []

/-- `YAMLTable.from_string(table_str, schema)`. -/
def YAMLTable.fromString (tableStr : PyStr) (schema? : Option (Dict PyStr)) :
    Except PyErr YAMLTable := do
  let ts := pyStrip tableStr
  let lines := splitlines ts
  match lines with
  | [] => .error (.valueError "Table string is empty.")
  | headerLine :: restLines =>
    let columns := pipeCells (pyStrip headerLine)
    let annots :=
      (columns.foldl (fun d col => dictInsert d col (headerAnnotValue col)) []).filter
        (fun kv => kv.2 ≠ [])
    -- `lines[1]` raises IndexError when the input has a single line.
    match restLines with
    | [] => .error .indexError
    | sepLine :: dataLines =>
      if ¬ (pyStrip sepLine).all isSeparatorChar then
        .error (.valueError "Invalid table format, expected a header and separator line.")
      else do
        let rows := (dataLines.filter (fun line => ¬ isBlank line)).map (buildRow columns)
        let schema ←
          match schema? with
          | some σ => pure σ
          | Option.none =>
            match rows with
            | r0 :: _ => inferSchema r0
            | [] => pure (columns.foldl (fun d col => dictInsert d col (pys "string")) [])
        YAMLTable.make rows (some (dictMerge schema annots))

/-- The `select` clause `as_unioned_selects` emits for one row: SQL values
are computed per row entry, then aliased with the **positional** zip of the
row's items against `columns.values()`. -/
def rowSelectClause (columns : Dict PyStr) (row : Dict PyVal) : Except PyErr PyStr := do
  let sqlValues ← row.foldlM
    (fun acc cv => do
      let s ← nativeToSql cv.2
      pure (dictInsert acc cv.1 s))
    []
  let aliases := (sqlValues.zip (columns.map Prod.snd)).map
    (fun p => pys "cast(" ++ p.1.2 ++ pys " as " ++ p.2 ++ pys ") as " ++ p.1.1)
  pure (pys "select " ++ List.intercalate (pys ", ") aliases)

/-- The single `select` emitted for a rowless table: one
`cast(null as <type>) as <col>` per column, then `\nwhere false`
(`native_to_sql(None)` is `null`). -/
def emptySelectClause (columns : Dict PyStr) : PyStr :=
  pys "select " ++
    List.intercalate (pys ", ")
      (columns.map (fun ct => pys "cast(null as " ++ ct.2 ++ pys ") as " ++ ct.1)) ++
  pys "\nwhere false"

/-- Sequential, fail-fast mapping of a fallible function over a list (a
Python loop or comprehension whose body may raise). -/
def mapExcept {α β : Type} (f : α → Except PyErr β) : List α → Except PyErr (List β)
  | [] => .ok []
  | a :: as => do
    let b ← f a
    let bs ← mapExcept f as
    .ok (b :: bs)

/-- `YAMLTable.as_unioned_selects`. -/
def YAMLTable.asUnionedSelects (t : YAMLTable) : Except PyErr PyStr :=
  match t.rows with
  | [] => pure (emptySelectClause t.columns)
  | _ :: _ => do
    let selects ← mapExcept (rowSelectClause t.columns) t.rows
    pure (List.intercalate (pys "\nunion all\n") selects)

/-- `model.SQLUnitMock`: name, type, optional default, optional column
schema.  The `default` annotation value is carried in its string form — it is
only ever handed to `ast.literal_eval` (`default_value`). -/
structure SQLUnitMock where
  name : PyStr
  typ : SQLUnitMockType
  default : Option PyStr := Option.none
  columns : Option (Dict PyStr) := Option.none
deriving Repr

/-- `SQLUnitMock.default_value`:
`ast.literal_eval(typ.default_factory(name) if default is None else default)`. -/
def SQLUnitMock.defaultValue (m : SQLUnitMock) : Except PyErr PyVal :=
  pyLiteralEval
    (match m.default with
     | Option.none => m.typ.defaultFactory m.name
     | some d => d)

/-- `model.SQLUnitSource`.  In Python the source holds only a file path;
`code` re-reads the file and `mock_schema()` re-derives the mocks from the
tagged comments via the external YAML collaborator.  The file content is
fixed during one compilation, so the model carries the code text and the
derived mock schema (name-keyed, insertion-ordered) directly. -/
structure SQLUnitSource where
  code : PyStr
  mockSchema : Dict SQLUnitMock

/-- `SQLUnitSource.mock(name)`: `self.mock_schema().root.get(name)`. -/
def SQLUnitSource.mock (src : SQLUnitSource) (name : PyStr) : Option SQLUnitMock :=
  dictLookup src.mockSchema name

/-- A value of the `given` mapping of a test case: `parse_given` returns a
`YAMLTable` for table-typed mocks and the raw annotation value otherwise. -/
inductive GivenVal where
  | tbl (t : YAMLTable)
  | raw (v : PyVal)

/-- `model.SQLUnitTestCase`. -/
structure SQLUnitTestCase where
  source : SQLUnitSource
  name : PyStr
  expected : YAMLTable
  given : Dict GivenVal

/-- `SQLUnitTestCase.parse_given(source, key, value)`. -/
def parseGiven (src : SQLUnitSource) (key : PyStr) (value : PyVal) :
    Except PyErr GivenVal :=
  match matchGiven key with
  | Option.none => .error (.valueError "Invalid given condition identifier")
  | some name =>
    match src.mock name with
    | Option.none => .error (.valueError "Mock not found in source mocks.")
    | some mock =>
      if mock.typ = SQLUnitMockType.table then
        match value with
        | .str s => (YAMLTable.fromString s mock.columns).map GivenVal.tbl
        | _ => .error (.attributeError "value has no attribute strip")
      else
        .ok (.raw value)

/-- The backfill loop of `SQLUnitTestCase.from_yaml_item`
(`for k in source.mock_schema().root.keys(): if k not in given: …`).  Note it
runs `YAMLTable.empty_mock_table` on **every** missing mock, whatever its
type. -/
def backfillGiven (schemaEntries : List (PyStr × SQLUnitMock))
    (given : Dict GivenVal) : Except PyErr (Dict GivenVal) :=
  match schemaEntries with
  | [] => .ok given
  | (k, m) :: rest =>
    if dictContains given k then backfillGiven rest given
    else
      match YAMLTable.emptyMockTable m.columns with
      | .error e => .error e
      | .ok t => backfillGiven rest (dictInsert given k (.tbl t))

/-- The `given` comprehension of `from_yaml_item`: entries of the test value
whose key matches the `given` grammar, each run through `parse_given`, keyed
by the **full** annotation key (`given "name"`), as in the Python dict
comprehension. -/
def parseGivenEntries (src : SQLUnitSource) (entries : Dict PyVal) :
    Except PyErr (Dict GivenVal) :=
  (entries.filter (fun kv => (matchGiven kv.1).isSome)).foldlM
    (fun acc kv => do
      let g ← parseGiven src kv.1 kv.2
      pure (dictInsert acc kv.1 g))
    []

/-- `SQLUnitTestCase.from_yaml_item(source, key, value)`.  The `value` is the
YAML mapping of the test declaration.  The missing-`expected` check is a bare
`assert` (AssertionError, not ValueError). -/
def fromYamlItem (src : SQLUnitSource) (key : PyStr) (value : Dict PyVal) :
    Except PyErr SQLUnitTestCase :=
  match matchIdentifier key with
  | Option.none => .error (.valueError "Invalid test case identifier")
  | some (ty, name) =>
    if ty ≠ pys "test" then
      .error (.valueError "Only test type is supported in this context.")
    else if ¬ dictContains value (pys "expected") then
      .error (.assertionError "Test case must have an expected field.")
    else do
      let expected ←
        match dictLookup value (pys "expected") with
        | some (.str s) => YAMLTable.fromString s Option.none
        | some _ => .error (.attributeError "value has no attribute strip")
        | Option.none => .error (.assertionError "unreachable: expected checked above")
      let given ← parseGivenEntries src value
      let given ← backfillGiven src.mockSchema given
      pure ⟨src, name, expected, given⟩

/-- The entry loop of `SQLUnitSource.test_cases()`.  Entries whose key lacks
the substring `sql-unit.test` are skipped; a `ValueError` from
`from_yaml_item` (including pydantic `ValidationError`) skips the entry; any
other exception propagates. -/
def testCasesLoop (src : SQLUnitSource) :
    List (PyStr × Dict PyVal) → List SQLUnitTestCase →
      Except PyErr (List SQLUnitTestCase)
  | [], acc => .ok acc.reverse
  | (key, value) :: rest, acc =>
    if ¬ isSubstrOf (pys "sql-unit.test") key then testCasesLoop src rest acc
    else
      match fromYamlItem src key value with
      | .ok c => testCasesLoop src rest (c :: acc)
      | .error e =>
        if e.isValueError then testCasesLoop src rest acc else .error e

/-- `SQLUnitSource.test_cases()`, given the annotation mapping recovered from
the source's tagged comments by the external YAML collaborator. -/
def testCases (src : SQLUnitSource) (comments : Dict (Dict PyVal)) :
    Except PyErr (List SQLUnitTestCase) :=
  testCasesLoop src comments []

/-- Replace every occurrence of `pat` in the final argument by `repl`,
scanning left to right (Python `str.replace` / one Jinja variable
substitution).  The `fuel` argument only bounds recursion; with
`fuel = s.length` it is never exhausted. -/
def replaceAllFuel (pat repl : PyStr) : Nat → PyStr → PyStr
  | _, [] => []
  | 0, s => s
  | fuel + 1, c :: t =>
    if pat ≠ [] && pat.isPrefixOf (c :: t) then
      repl ++ replaceAllFuel pat repl fuel ((c :: t).drop pat.length)
    else c :: replaceAllFuel pat repl fuel t

/-- Replace every occurrence of `pat` in `s` by `repl`. -/
def replaceAll (pat repl s : PyStr) : PyStr := replaceAllFuel pat repl s.length s

/-- A value of the template-render context in `compile()`: either an entry
copied from `given`, or the `<name>_table` alias string a table-typed mock is
mapped to. -/
inductive CtxVal where
  | fromGiven (v : GivenVal)
  | alias (s : PyStr)

/-- Modelled from the spec: how the templating collaborator prints a context
value substituted for a variable reference (§6; only plain strings are
exercised by the claims — aliases and raw string givens render as
themselves). -/
def ctxRender : CtxVal → PyStr
  | .alias s => s
  | .fromGiven (.raw (.str s)) => s
  | .fromGiven (.raw (.int n)) => pys (toString n)
  | .fromGiven (.raw (.bool b)) => if b then pys "True" else pys "False"
  | .fromGiven (.raw (.float r)) => r
  | .fromGiven (.raw .none) => pys "None"
  | .fromGiven (.raw (.list _)) => pys "[...]"
  | .fromGiven (.raw (.dict _)) => pys "\x7b...\x7d"
  | .fromGiven (.tbl _) => pys "YAMLTable(...)"

/-- Modelled from the spec: the external templating collaborator (§6)
"must support variable substitution"; rendering substitutes each variable
reference `\x7b\x7b name \x7d\x7d` by the context value's text.  A template
containing no variable reference renders unchanged. -/
def renderJinja (ctx : Dict CtxVal) (s : PyStr) : PyStr :=
  ctx.foldl
    (fun acc kv =>
      replaceAll (pys "\x7b\x7b " ++ kv.1 ++ pys " \x7d\x7d") (ctxRender kv.2) acc)
    s

/-- The CTE fragments `compile()` builds from `given`: one
`<name>_table as (<unioned selects>)` per `YAMLTable`-valued entry, in
insertion order; non-table entries are skipped. -/
def givenWiths (given : Dict GivenVal) : Except PyErr (List PyStr) :=
  given.foldlM
    (fun acc kv =>
      match kv.2 with
      | .tbl t => do
        let sel ← t.asUnionedSelects
        pure (acc ++ [kv.1 ++ pys "_table as (" ++ sel ++ pys ")"])
      | .raw _ => pure acc)
    []

/-- `SQLUnitTestCase.compile()`.  Faithful reading of the regex surgery: the
anchored `leading_with_pattern` matches `with <name> as (<body>)` — the whole
first CTE, not just the `WITH` keyword — and `sub("")` removes exactly that
prefix; a trailing `",\n"` is appended to the injected clause whenever the
pattern matched. -/
def SQLUnitTestCase.compile (tc : SQLUnitTestCase) : Except PyErr PyStr := do
  let sourceCode := tc.source.code
  let matched := leadingWithMatch sourceCode
  let sourceCode :=
    match matched with
    | some n => sourceCode.drop n
    | Option.none => sourceCode
  let withs ← givenWiths tc.given
  let withClause :=
    match withs with
    | [] => []
    | _ :: _ =>
      let wc := pys "with " ++ List.intercalate (pys ", ") withs
      if matched.isSome then wc ++ pys ",\n" else wc
  let injected := withClause ++ pys "\n" ++ sourceCode
  let context := tc.given.map (fun kv => (kv.1, CtxVal.fromGiven kv.2))
  let context := tc.source.mockSchema.foldl
    (fun ctx entry =>
      if entry.2.typ = SQLUnitMockType.table then
        dictInsert ctx entry.2.name (CtxVal.alias (entry.2.name ++ pys "_table"))
      else ctx)
    context
  pure (pyStrip (renderJinja context injected))

/-! ## Concrete artefacts used by the claim theorems -/

/-- A source whose code has a leading WITH clause, declaring one table mock. -/
def leadingWithSource : SQLUnitSource :=
  { code := pys "with a as (select 1)\nselect * from a",
    mockSchema :=
      [(pys "m",
        { name := pys "m", typ := SQLUnitMockType.table,
          columns := some [(pys "id", pys "int")] })] }

/-- The test case built on `leadingWithSource` whose `given` holds one
table-typed entry (the backfilled empty mock table). -/
def leadingWithCase : Except PyErr SQLUnitTestCase :=
  fromYamlItem leadingWithSource (pys "sql-unit.test \"t\"")
    [(pys "expected", PyVal.str (pys "| id |\n|----|"))]

/-- A source declaring a single scalar (int-typed) mock. -/
def scalarMockSource : SQLUnitSource :=
  { code := pys "select 1",
    mockSchema :=
      [(pys "delta", { name := pys "delta", typ := SQLUnitMockType.int })] }

/-- A one-row literal table whose single cell value is the string
`where false`. -/
def whereFalseValueTable : YAMLTable :=
  ⟨[[(pys "c", PyVal.str (pys "where false"))]], [(pys "c", pys "string")]⟩

/-! ## Claim theorems -/

/-- Claim C1.  The claim says `compile()` keeps every CTE of an original
leading WITH clause, removing only the `WITH` keyword.  In the code, the
anchored pattern `^\s*(with)\s+.+?\s+as\s+\(.+?\)` consumes the whole first
CTE (`with a as (select 1)`), and `sub("")` deletes it: for a source
`with a as (select 1)\nselect * from a` and a test case whose `given` holds
one table-typed mock `m`, the compiled text has lost the first CTE's body
`select 1` and its name binding `a as` entirely, leaving a dangling comma
before `select * from a`.  This evaluates the compiler at that failing
input. -/
theorem compile_drops_first_leading_cte :
    leadingWithCase.map SQLUnitTestCase.compile =
      .ok (.ok (pys
        "with m_table as (select cast(null as int) as id\nwhere false),\n\n\nselect * from a")) ∧
    substrCount (pys "select 1")
      (pys "with m_table as (select cast(null as int) as id\nwhere false),\n\n\nselect * from a")
      = 0 ∧
    substrCount (pys "a as")
      (pys "with m_table as (select cast(null as int) as id\nwhere false),\n\n\nselect * from a")
      = 0 :=
  ⟨rfl, by decide, by decide⟩

/-- Claim C4.  The claim says a scalar-typed mock absent from `given` is left
absent and construction succeeds.  In the code, the backfill loop runs
`YAMLTable.empty_mock_table` on **every** missing mock; for the int-typed
mock `delta` (whose `columns` is `None`) that constructs
`YAMLTable(rows=[], columns=None)`, which pydantic rejects with a
`ValidationError` — so `from_yaml_item` raises instead of succeeding (and
`test_cases` silently drops the test, since `ValidationError` is a
`ValueError`). -/
theorem from_yaml_item_backfills_scalar_mock_and_fails :
    fromYamlItem scalarMockSource (pys "sql-unit.test \"t\"")
        [(pys "expected", PyVal.str (pys "| a |\n|---|"))] =
      .error (.valueError "ValidationError: columns is not a valid dict") := by
  rfl

/-- Claim C6.  The claim says all seven mock types' default factories yield a
real typed value.  Six do; for `bool` the factory emits the string `false`,
which `ast.literal_eval` rejects (`false` is a Python name, not a literal),
so `default_value` raises `ValueError` instead of returning `False`. -/
theorem default_value_bool_raises :
    SQLUnitMock.defaultValue
        ⟨pys "m", SQLUnitMockType.table, Option.none, some [(pys "id", pys "int")]⟩ =
      .ok (.str (pys "m_table")) ∧
    SQLUnitMock.defaultValue ⟨pys "m", SQLUnitMockType.mapping, Option.none, Option.none⟩ =
      .ok (.dict []) ∧
    SQLUnitMock.defaultValue ⟨pys "m", SQLUnitMockType.sequence, Option.none, Option.none⟩ =
      .ok (.list []) ∧
    SQLUnitMock.defaultValue ⟨pys "m", SQLUnitMockType.int, Option.none, Option.none⟩ =
      .ok (.int 0) ∧
    SQLUnitMock.defaultValue ⟨pys "m", SQLUnitMockType.float, Option.none, Option.none⟩ =
      .ok (.float (pys "0.0")) ∧
    SQLUnitMock.defaultValue ⟨pys "m", SQLUnitMockType.str, Option.none, Option.none⟩ =
      .ok (.str (pys "m")) ∧
    SQLUnitMock.defaultValue ⟨pys "m", SQLUnitMockType.bool, Option.none, Option.none⟩ =
      .error (.valueError "malformed node or string") :=
  ⟨rfl, rfl, rfl, rfl, rfl, rfl, rfl⟩

/-- Claim C5.  The claim says an inline `::type` header annotation overrides
the explicitly passed schema's type for that column, the column keeping its
bare name.  In the code the annotation dict is keyed by the **full** header
cell text `a::int` (the bare name is never extracted), so `schema |= annots`
adds a phantom `a::int` column instead of retyping `a`: with no data rows the
result keeps `a : string` from the passed schema and gains `a::int : int`;
with a data row (whose keys are also the full cell texts) the row/column set
check fails and construction raises. -/
theorem from_string_annotation_does_not_override_schema :
    YAMLTable.fromString (pys "| a::int |\n|--------|")
        (some [(pys "a", pys "string")]) =
      .ok ⟨[], [(pys "a", pys "string"), (pys "a::int", pys "int")]⟩ ∧
    YAMLTable.fromString (pys "| a::int |\n|--------|\n| 5 |")
        (some [(pys "a", pys "string")]) =
      .error (.valueError "Row does not match defined columns") :=
  ⟨rfl, rfl⟩

/-- Claim C7, counterexample.  The claim says an input whose header yields no
column names parses successfully into a zero-column table.  On the concrete
input `"x\n-"` (header `x` with no pipe cells, valid separator `-`), the
degenerate empty `columns` dict is rejected by the `validate_columns` model
validator: `from_string` raises `ValueError("Columns must be defined for a
YAMLTable.")` instead of returning a table. -/
theorem from_string_no_columns_counterexample :
    YAMLTable.fromString (pys "x\n-") Option.none =
      .error (.valueError "Columns must be defined for a YAMLTable.") :=
  rfl

/-- Claim C2, counterexample.  The claim says that with N > 0 rows the result
of `as_unioned_selects()` does not contain `where false`.  For the one-row
table whose single cell holds the string value `where false`, the encoded
value is quoted verbatim into the select clause, so the output does contain
the substring `where false` (and a second `select`). -/
theorem as_unioned_selects_substring_counterexample :
    whereFalseValueTable.rows.length = 1 ∧
    whereFalseValueTable.asUnionedSelects =
      .ok (pys "select cast('where false' as string) as c") ∧
    substrCount (pys "where false") (pys "select cast('where false' as string) as c") = 1 :=
  ⟨rfl, rfl, by decide⟩

/-- Unfolding `splitlines` at a line-break character other than `'\r'`. -/
theorem splitlines_cons_of_break (c : Char) (t : PyStr)
    (hcr : c ≠ '\r') (hcf : isLineBreak c = true) :
    splitlines (c :: t) = [] :: splitlines t := by
  rw [splitlines.eq_def]
  split
  · rename_i heq
    exact absurd heq (List.cons_ne_nil c t)
  · rename_i c2 t2 heq
    injection heq with h1 h2
    subst h1; subst h2
    rw [if_neg hcr, if_pos hcf]

/-- Unfolding `splitlines` at a non-line-break character. -/
theorem splitlines_cons_of_not_break (c : Char) (t : PyStr)
    (hcf : isLineBreak c = false) :
    splitlines (c :: t) = consHead c (splitlines t) := by
  have hcr : c ≠ '\r' := by
    intro h
    rw [h] at hcf
    simp [isLineBreak] at hcf
  rw [splitlines.eq_def]
  split
  · rename_i heq
    exact absurd heq (List.cons_ne_nil c t)
  · rename_i c2 t2 heq
    injection heq with h1 h2
    subst h1; subst h2
    rw [if_neg hcr, if_neg (by simp [hcf])]

/-- Lines without line-break characters split into themselves. -/
theorem splitlines_no_break (l : PyStr) (hne : l ≠ [])
    (hc : ∀ c ∈ l, isLineBreak c = false) : splitlines l = [l] := by
  induction l with
  | nil => exact absurd rfl hne
  | cons c t ih =>
    have hcf : isLineBreak c = false := hc c (List.mem_cons_self c t)
    rw [splitlines_cons_of_not_break c t hcf]
    cases ht : t with
    | nil => simp [splitlines, consHead]
    | cons d t2 =>
      rw [ht] at ih
      rw [ih (by simp) (fun x hx => hc x (ht ▸ List.mem_cons_of_mem c hx))]
      rfl

/-- Claim C10.  For every input that strips to a single non-empty line (no
line-break characters), `from_string` reaches `lines[1]` with a one-element
`lines` list and raises `IndexError` — not the `ValueError` its own error
paths document. -/
theorem from_string_single_line_index_error (tableStr : PyStr)
    (schema? : Option (Dict PyStr)) (hne : pyStrip tableStr ≠ [])
    (hnb : ∀ c ∈ pyStrip tableStr, isLineBreak c = false) :
    YAMLTable.fromString tableStr schema? = .error .indexError := by
  simp only [YAMLTable.fromString]
  rw [splitlines_no_break (pyStrip tableStr) hne hnb]

/-- Witness for `from_string_single_line_index_error` at the concrete
header-only input `"| a | b |"`. -/
theorem from_string_single_line_index_error_witness :
    YAMLTable.fromString (pys "| a | b |") Option.none = .error .indexError :=
  from_string_single_line_index_error (pys "| a | b |") Option.none
    (by decide) (by decide)

/-- Inversion for a successful `Except` bind. -/
theorem exceptBind_ok {ε α β : Type} {x : Except ε α} {f : α → Except ε β} {b : β}
    (h : x >>= f = .ok b) : ∃ a, x = .ok a ∧ f a = .ok b := by
  cases x with
  | error e => exact absurd h (by simp [Bind.bind, Except.bind])
  | ok a => exact ⟨a, rfl, by simpa [Bind.bind, Except.bind] using h⟩

/-- Inversion for a successful `Except` map. -/
theorem exceptMap_ok {ε α β : Type} {f : α → β} {x : Except ε α} {b : β}
    (h : f <$> x = .ok b) : ∃ a, x = .ok a ∧ f a = b := by
  cases x with
  | error e => exact absurd h (by simp [Functor.map, Except.map])
  | ok a => exact ⟨a, rfl, by simpa [Functor.map, Except.map] using h⟩

/-- Inserting a key makes it present. -/
theorem dictContains_dictInsert_self {α : Type} (d : Dict α) (k : PyStr) (v : α) :
    dictContains (dictInsert d k v) k = true := by
  unfold dictInsert
  split
  · rename_i hin
    unfold dictContains at hin ⊢
    rw [List.any_eq_true] at hin ⊢
    obtain ⟨kv, hmem, hk⟩ := hin
    refine ⟨(k, v), List.mem_map.mpr ⟨kv, hmem, ?_⟩, by simp⟩
    rw [if_pos (by simpa using hk)]
  · unfold dictContains
    rw [List.any_eq_true]
    exact ⟨(k, v), List.mem_append_right _ (by simp), by simp⟩

/-- Inserting preserves the presence of any key. -/
theorem dictContains_dictInsert_of {α : Type} (d : Dict α) (k x : PyStr) (v : α)
    (h : dictContains d x = true) : dictContains (dictInsert d k v) x = true := by
  unfold dictInsert
  split
  · unfold dictContains at h ⊢
    rw [List.any_eq_true] at h ⊢
    obtain ⟨kv, hmem, hk⟩ := h
    by_cases hkx : kv.1 = k
    · refine ⟨(k, v), List.mem_map.mpr ⟨kv, hmem, by rw [if_pos hkx]⟩, ?_⟩
      simp only [decide_eq_true_eq]
      rw [← (by simpa using hk : kv.1 = x), hkx]
    · exact ⟨kv, List.mem_map.mpr ⟨kv, hmem, by rw [if_neg hkx]⟩, hk⟩
  · unfold dictContains at h ⊢
    rw [List.any_eq_true] at h ⊢
    obtain ⟨kv, hmem, hk⟩ := h
    exact ⟨kv, List.mem_append_left _ hmem, hk⟩

/-- Whatever dictionary the backfill loop of `from_yaml_item` returns
contains every schema key it processed, plus everything the input
dictionary already contained. -/
theorem backfillGiven_covers (entries : List (PyStr × SQLUnitMock))
    (given given' : Dict GivenVal)
    (h : backfillGiven entries given = .ok given') :
    (∀ k ∈ entries.map Prod.fst, dictContains given' k = true) ∧
    (∀ x, dictContains given x = true → dictContains given' x = true) := by
  induction entries generalizing given with
  | nil =>
    unfold backfillGiven at h
    injection h with h
    subst h
    exact ⟨by simp, fun _ hx => hx⟩
  | cons e rest ih =>
    obtain ⟨k, m⟩ := e
    unfold backfillGiven at h
    by_cases hin : dictContains given k = true
    · rw [if_pos hin] at h
      obtain ⟨hcov, hmono⟩ := ih given h
      refine ⟨?_, hmono⟩
      intro x hx
      rcases List.mem_cons.mp hx with hx | hx
      · rw [hx]
        exact hmono k hin
      · exact hcov x hx
    · rw [if_neg hin] at h
      cases hemp : YAMLTable.emptyMockTable m.columns with
      | error e => rw [hemp] at h; exact absurd h (by simp)
      | ok t =>
        rw [hemp] at h
        obtain ⟨hcov, hmono⟩ := ih (dictInsert given k (.tbl t)) h
        constructor
        · intro x hx
          rcases List.mem_cons.mp hx with hx | hx
          · subst hx
            exact hmono x (dictContains_dictInsert_self given x (.tbl t))
          · exact hcov x hx
        · intro x hx
          exact hmono x (dictContains_dictInsert_of given k x (.tbl t) hx)

/-- Claim C3.  For every successfully constructed test case, the `given`
mapping contains an entry for every mock declared in the source's mock
schema: the backfill loop of `from_yaml_item` inserts an (empty-table) entry
under every schema key it does not find. -/
theorem from_yaml_item_given_covers_schema (src : SQLUnitSource) (key : PyStr)
    (value : Dict PyVal) (tc : SQLUnitTestCase)
    (h : fromYamlItem src key value = .ok tc) :
    ∀ k ∈ dictKeys src.mockSchema, dictContains tc.given k = true := by
  unfold fromYamlItem at h
  cases hm : matchIdentifier key with
  | none => rw [hm] at h; exact absurd h (by simp)
  | some tyname =>
    obtain ⟨ty, name⟩ := tyname
    rw [hm] at h
    simp only at h
    split at h
    · exact absurd h (by simp)
    · split at h
      · exact absurd h (by simp)
      · cases hexp : dictLookup value (pys "expected") with
        | none =>
          rw [hexp] at h
          obtain ⟨a, ha, -⟩ := exceptBind_ok h
          exact Except.noConfusion ha
        | some v =>
          rw [hexp] at h
          cases v with
          | str s =>
            obtain ⟨expTbl, hfs, h⟩ := exceptBind_ok h
            obtain ⟨g0, hpg, h⟩ := exceptBind_ok h
            obtain ⟨g1, hbf, h⟩ := exceptMap_ok h
            subst h
            intro k hk
            exact (backfillGiven_covers src.mockSchema g0 g1 hbf).1 k hk
          | int n =>
            obtain ⟨a, ha, -⟩ := exceptBind_ok h
            exact Except.noConfusion ha
          | float r =>
            obtain ⟨a, ha, -⟩ := exceptBind_ok h
            exact Except.noConfusion ha
          | bool b =>
            obtain ⟨a, ha, -⟩ := exceptBind_ok h
            exact Except.noConfusion ha
          | none =>
            obtain ⟨a, ha, -⟩ := exceptBind_ok h
            exact Except.noConfusion ha
          | list items =>
            obtain ⟨a, ha, -⟩ := exceptBind_ok h
            exact Except.noConfusion ha
          | dict items =>
            obtain ⟨a, ha, -⟩ := exceptBind_ok h
            exact Except.noConfusion ha

/-- The concrete test case `leadingWithCase` constructs (extracted from the
`Except`; the fallback is never taken). -/
def leadingWithCaseValue : SQLUnitTestCase :=
  leadingWithCase.toOption.getD ⟨leadingWithSource, [], ⟨[], []⟩, []⟩

/-- Witness for `from_yaml_item_given_covers_schema`: the concrete test case
on `leadingWithSource` (one declared mock `m`) has an entry for `m` in its
`given`. -/
theorem from_yaml_item_given_covers_schema_witness :
    dictContains leadingWithCaseValue.given (pys "m") = true :=
  from_yaml_item_given_covers_schema leadingWithSource (pys "sql-unit.test \"t\"")
    [(pys "expected", PyVal.str (pys "| id |\n|----|"))] leadingWithCaseValue
    rfl (pys "m") (by decide)

/-- Claim C7, amended.  Whenever the (stripped) input has at least a header
and a valid separator line but the header yields no column names, every data
row degenerates to an empty dict and the schema to an empty dict, and the
constructor's `validate_columns` rejects the empty columns with
`ValueError("Columns must be defined for a YAMLTable.")` — the zero-column
table is rejected, not returned. -/
theorem from_string_no_columns_raises (tableStr headerLine sepLine : PyStr)
    (dataLines : List PyStr)
    (hsplit : splitlines (pyStrip tableStr) = headerLine :: sepLine :: dataLines)
    (hcells : pipeCells (pyStrip headerLine) = [])
    (hsep : (pyStrip sepLine).all isSeparatorChar = true) :
    YAMLTable.fromString tableStr Option.none =
      .error (.valueError "Columns must be defined for a YAMLTable.") := by
  simp only [YAMLTable.fromString, hsplit, hcells, hsep, Bool.not_true,
    Bool.false_eq_true, if_false, not_true, ite_false]
  cases hfl : dataLines.filter (fun line => ¬ isBlank line) with
  | nil => rfl
  | cons l0 ltl => rfl

/-- Witness for `from_string_no_columns_raises` at the concrete input
`"junk\n| - |\n| 3 |"`. -/
theorem from_string_no_columns_raises_witness :
    YAMLTable.fromString (pys "junk\n| - |\n| 3 |") Option.none =
      .error (.valueError "Columns must be defined for a YAMLTable.") :=
  from_string_no_columns_raises (pys "junk\n| - |\n| 3 |")
    (pys "junk") (pys "| - |") [pys "| 3 |"] rfl rfl rfl

/-- `from_yaml_item` on a `test`-keyed entry whose value mapping lacks the
`expected` key fails the bare `assert`, raising `AssertionError` — not
`ValueError`. -/
theorem fromYamlItem_missing_expected (src : SQLUnitSource) (key name : PyStr)
    (value : Dict PyVal)
    (hm : matchIdentifier key = some (pys "test", name))
    (hexp : dictContains value (pys "expected") = false) :
    fromYamlItem src key value =
      .error (.assertionError "Test case must have an expected field.") := by
  unfold fromYamlItem
  rw [hm]
  simp only [hexp]
  rw [if_neg (fun hh => hh rfl)]
  simp

/-- An entry of the comments mapping that `test_cases` gets past without
propagating: either its key lacks the `sql-unit.test` marker (skipped by the
substring test), or `from_yaml_item` returns a case or raises a `ValueError`
(caught and skipped). -/
def entrySkippedOrSafe (src : SQLUnitSource) (e : PyStr × Dict PyVal) : Bool :=
  !isSubstrOf (pys "sql-unit.test") e.1 ||
  (match fromYamlItem src e.1 e.2 with
   | .ok _ => true
   | .error err => err.isValueError)

/-- The loop of `test_cases` propagates the `AssertionError` of a
missing-`expected` entry, whatever accumulator it has built so far. -/
theorem testCases_go_missing_expected (src : SQLUnitSource) (key name : PyStr)
    (value : Dict PyVal) (post : List (PyStr × Dict PyVal))
    (hm : matchIdentifier key = some (pys "test", name))
    (hsub : isSubstrOf (pys "sql-unit.test") key = true)
    (hexp : dictContains value (pys "expected") = false) :
    ∀ (pre : List (PyStr × Dict PyVal)) (acc : List SQLUnitTestCase),
      pre.all (entrySkippedOrSafe src) = true →
      testCasesLoop src (pre ++ (key, value) :: post) acc =
        .error (.assertionError "Test case must have an expected field.") := by
  intro pre
  induction pre with
  | nil =>
    intro acc _
    rw [List.nil_append]
    unfold testCasesLoop
    rw [if_neg (by simp [hsub])]
    simp only [fromYamlItem_missing_expected src key name value hm hexp]
    simp [PyErr.isValueError]
  | cons e pre ih =>
    intro acc hall
    rw [List.all_cons, Bool.and_eq_true] at hall
    obtain ⟨he, hall⟩ := hall
    obtain ⟨k0, v0⟩ := e
    rw [List.cons_append]
    unfold entrySkippedOrSafe at he
    cases hsub0 : isSubstrOf (pys "sql-unit.test") k0 with
    | false =>
      unfold testCasesLoop
      rw [if_pos (by simp [hsub0])]
      exact ih acc hall
    | true =>
      rw [hsub0] at he
      simp only [Bool.not_true, Bool.false_or] at he
      cases hfy : fromYamlItem src k0 v0 with
      | ok c =>
        unfold testCasesLoop
        rw [if_neg (by simp [hsub0])]
        simp only [hfy]
        exact ih (c :: acc) hall
      | error err =>
        rw [hfy] at he
        simp only at he
        unfold testCasesLoop
        rw [if_neg (by simp [hsub0])]
        simp only [hfy, he, if_true]
        exact ih acc hall

/-- Claim C9.  A test annotation entry whose value lacks `expected` makes
`from_yaml_item` raise `AssertionError` (a bare `assert`), and since the
`test_cases` loop catches only `ValueError`, the error propagates out of
`test_cases` — the malformed entry is not skipped and no list of cases is
returned for the whole source. -/
theorem testCases_missing_expected_propagates (src : SQLUnitSource)
    (pre : List (PyStr × Dict PyVal)) (key name : PyStr) (value : Dict PyVal)
    (post : List (PyStr × Dict PyVal))
    (hpre : pre.all (entrySkippedOrSafe src) = true)
    (hm : matchIdentifier key = some (pys "test", name))
    (hsub : isSubstrOf (pys "sql-unit.test") key = true)
    (hexp : dictContains value (pys "expected") = false) :
    testCases src (pre ++ (key, value) :: post) =
      .error (.assertionError "Test case must have an expected field.") := by
  unfold testCases
  exact testCases_go_missing_expected src key name value post hm hsub hexp pre [] hpre

/-- Witness for `testCases_missing_expected_propagates`: a comments mapping
with a benign mock entry, a well-formed test, and a test lacking `expected`
makes `test_cases` propagate the `AssertionError` (no cases returned), even
though a valid test preceded the malformed one. -/
theorem testCases_missing_expected_propagates_witness :
    testCases scalarMockSource
        ([(pys "sql-unit.mock \"delta\"", []),
          (pys "sql-unit.test \"good\"",
            [(pys "expected", PyVal.str (pys "| a |\n|---|")),
             (pys "given \"delta\"", PyVal.int 3)])] ++
          (pys "sql-unit.test \"bad\"", [(pys "given \"delta\"", PyVal.int 3)]) :: []) =
      .error (.assertionError "Test case must have an expected field.") :=
  testCases_missing_expected_propagates scalarMockSource
    [(pys "sql-unit.mock \"delta\"", []),
     (pys "sql-unit.test \"good\"",
       [(pys "expected", PyVal.str (pys "| a |\n|---|")),
        (pys "given \"delta\"", PyVal.int 3)])]
    (pys "sql-unit.test \"bad\"") (pys "bad")
    [(pys "given \"delta\"", PyVal.int 3)] []
    (by decide) rfl (by decide) rfl

mutual

/-- Values accepted by the SQL literal encoder (`native_to_sql` raises
`TypeError` exactly on mappings, at any nesting depth). -/
def sqlEncodable : PyVal → Bool
  | .dict _ => false
  | .list items => sqlEncodableList items
  | _ => true

/-- `sqlEncodable` over the items of a list value. -/
def sqlEncodableList : List PyVal → Bool
  | [] => true
  | v :: vs => sqlEncodable v && sqlEncodableList vs

end

mutual

/-- The encoder succeeds on every encodable value. -/
theorem nativeToSql_ok_of_encodable :
    ∀ (v : PyVal), sqlEncodable v = true → ∃ s, nativeToSql v = .ok s
  | .str s, _ => ⟨_, rfl⟩
  | .int n, _ => ⟨_, rfl⟩
  | .float r, _ => ⟨_, rfl⟩
  | .bool b, _ => ⟨_, rfl⟩
  | .none, _ => ⟨_, rfl⟩
  | .list items, h => by
    obtain ⟨ss, hss⟩ :=
      nativeToSqlList_ok_of_encodable items (by simpa [sqlEncodable] using h)
    refine ⟨'[' :: List.intercalate (pys ", ") ss ++ [']'], ?_⟩
    simp [nativeToSql, hss, Bind.bind, Except.bind, pure, Except.pure]
  | .dict _, h => by simp [sqlEncodable] at h

/-- The encoder succeeds on a list of encodable values. -/
theorem nativeToSqlList_ok_of_encodable :
    ∀ (l : List PyVal), sqlEncodableList l = true → ∃ ss, nativeToSqlList l = .ok ss
  | [], _ => ⟨[], rfl⟩
  | v :: vs, h => by
    rw [sqlEncodableList, Bool.and_eq_true] at h
    obtain ⟨s, hs⟩ := nativeToSql_ok_of_encodable v h.1
    obtain ⟨ss, hss⟩ := nativeToSqlList_ok_of_encodable vs h.2
    exact ⟨s :: ss, by simp [nativeToSqlList, hs, hss, Bind.bind, Except.bind]⟩

end

/-- A list is a `isPrefixOf`-prefix of itself followed by anything. -/
theorem isPrefixOf_append_self (l y : List Char) : l.isPrefixOf (l ++ y) = true := by
  rw [List.isPrefixOf_iff_prefix]
  exact List.prefix_append l y

/-- The per-entry SQL-value fold of `rowSelectClause` succeeds on encodable
rows. -/
theorem rowSqlValues_ok (row : List (PyStr × PyVal)) :
    ∀ acc : Dict PyStr,
      (∀ kv ∈ row, sqlEncodable kv.2 = true) →
      ∃ d, row.foldlM
          (fun acc cv => do
            let s ← nativeToSql cv.2
            pure (dictInsert acc cv.1 s))
          acc = .ok d := by
  induction row with
  | nil => exact fun acc _ => ⟨acc, rfl⟩
  | cons kv row ih =>
    intro acc hok
    obtain ⟨s, hs⟩ := nativeToSql_ok_of_encodable kv.2 (hok kv (List.mem_cons_self kv row))
    obtain ⟨d, hd⟩ := ih (dictInsert acc kv.1 s)
      (fun x hx => hok x (List.mem_cons_of_mem kv hx))
    refine ⟨d, ?_⟩
    rw [List.foldlM_cons]
    simpa [hs, Bind.bind, Except.bind] using hd

/-- `rowSelectClause` yields a clause starting with `select ` on every
encodable row. -/
theorem rowSelectClause_ok (columns : Dict PyStr) (row : List (PyStr × PyVal))
    (hok : ∀ kv ∈ row, sqlEncodable kv.2 = true) :
    ∃ c, rowSelectClause columns row = .ok c ∧
      (pys "select ").isPrefixOf c = true := by
  obtain ⟨d, hd⟩ := rowSqlValues_ok row [] hok
  refine ⟨pys "select " ++
      List.intercalate (pys ", ")
        ((d.zip (columns.map Prod.snd)).map
          (fun p => pys "cast(" ++ p.1.2 ++ pys " as " ++ p.2 ++ pys ") as " ++ p.1.1)),
    ?_, isPrefixOf_append_self (pys "select ") _⟩
  unfold rowSelectClause
  rw [hd]
  rfl

/-- Mapping `rowSelectClause` over encodable rows yields one clause per row,
each starting with `select `. -/
theorem mapM_rowSelectClause_ok (columns : Dict PyStr) :
    ∀ rows : List (List (PyStr × PyVal)),
      (∀ row ∈ rows, ∀ kv ∈ row, sqlEncodable kv.2 = true) →
      ∃ clauses : List PyStr,
        mapExcept (rowSelectClause columns) rows = .ok clauses ∧
        clauses.length = rows.length ∧
        ∀ c ∈ clauses, (pys "select ").isPrefixOf c = true := by
  intro rows
  induction rows with
  | nil => exact fun _ => ⟨[], rfl, rfl, by simp⟩
  | cons row rows ih =>
    intro hok
    obtain ⟨c, hc, hcpre⟩ :=
      rowSelectClause_ok columns row (hok row (List.mem_cons_self row rows))
    obtain ⟨cs, hcs, hlen, hpre⟩ := ih (fun r hr => hok r (List.mem_cons_of_mem row hr))
    refine ⟨c :: cs, ?_, by simp [hlen], ?_⟩
    · unfold mapExcept
      simp [hc, hcs, Bind.bind, Except.bind, pure, Except.pure]
    · intro x hx
      rcases List.mem_cons.mp hx with hx | hx
      · rw [hx]; exact hcpre
      · exact hpre x hx

/-- Claim C2, amended.  The output shape of `as_unioned_selects()`: with zero
rows it is exactly the single clause
`select cast(null as <type>) as <col>, … \nwhere false` (one `select `
prefix, ending in `\nwhere false`); with N > 0 rows (whose values the SQL
encoder accepts) it is exactly N clauses, one per row, each starting with
`select `, joined by `\nunion all\n` — the `where false` tail of the empty
case is never appended.  (As raw substrings, `select` or `where false` can
still occur inside encoded cell values, column names or types, which is what
the original substring phrasing misses.) -/
theorem as_unioned_selects_shape (t : YAMLTable) :
    (t.rows = [] →
      t.asUnionedSelects = .ok (emptySelectClause t.columns) ∧
      (pys "select ").isPrefixOf (emptySelectClause t.columns) = true ∧
      (pys "\nwhere false").isSuffixOf (emptySelectClause t.columns) = true) ∧
    (t.rows ≠ [] →
      (∀ row ∈ t.rows, ∀ kv ∈ row, sqlEncodable kv.2 = true) →
      ∃ clauses : List PyStr,
        clauses.length = t.rows.length ∧
        (∀ c ∈ clauses, (pys "select ").isPrefixOf c = true) ∧
        t.asUnionedSelects = .ok (List.intercalate (pys "\nunion all\n") clauses)) := by
  constructor
  · intro hrows
    refine ⟨?_, isPrefixOf_append_self (pys "select ") _, ?_⟩
    · unfold YAMLTable.asUnionedSelects
      rw [hrows]
      rfl
    · unfold emptySelectClause
      rw [List.append_assoc]
      have : (pys "\nwhere false").isSuffixOf
          (List.intercalate (pys ", ")
            (t.columns.map
              (fun ct => pys "cast(null as " ++ ct.2 ++ pys ") as " ++ ct.1)) ++
            pys "\nwhere false") = true := by
        rw [List.isSuffixOf_iff_suffix]
        exact List.suffix_append _ _
      rw [List.isSuffixOf_iff_suffix] at this ⊢
      exact this.trans (List.suffix_append _ _)
  · intro hne hok
    obtain ⟨clauses, hmap, hlen, hpre⟩ := mapM_rowSelectClause_ok t.columns t.rows hok
    refine ⟨clauses, hlen, hpre, ?_⟩
    unfold YAMLTable.asUnionedSelects
    cases hrows : t.rows with
    | nil => exact absurd hrows hne
    | cons r rs =>
      rw [hrows] at hmap
      simp [hmap, Bind.bind, Except.bind, pure, Except.pure]

/-- Witness for `as_unioned_selects_shape` at a concrete two-row table. -/
theorem as_unioned_selects_shape_witness :
    ∃ clauses : List PyStr,
      clauses.length =
        (YAMLTable.mk [[(pys "a", PyVal.int 1)], [(pys "a", PyVal.int 2)]]
          [(pys "a", pys "int")]).rows.length ∧
      (∀ c ∈ clauses, (pys "select ").isPrefixOf c = true) ∧
      (YAMLTable.mk [[(pys "a", PyVal.int 1)], [(pys "a", PyVal.int 2)]]
          [(pys "a", pys "int")]).asUnionedSelects =
        .ok (List.intercalate (pys "\nunion all\n") clauses) :=
  (as_unioned_selects_shape
    (YAMLTable.mk [[(pys "a", PyVal.int 1)], [(pys "a", PyVal.int 2)]]
      [(pys "a", pys "int")])).2 (by simp) (by decide)

/-! ## Lemmas for the comment-normalization idempotence (claim C8) -/

section NormalizeLemmas

variable {p : Char → Bool}

/-- `takeWhile` walks through a fully-satisfying prefix. -/
theorem takeWhile_append_of_all {A : List Char} (B : List Char)
    (h : ∀ a ∈ A, p a = true) :
    (A ++ B).takeWhile p = A ++ B.takeWhile p := by
  induction A with
  | nil => rfl
  | cons c t ih =>
    rw [List.cons_append, List.takeWhile_cons,
      h c (List.mem_cons_self c t), List.cons_append,
      ih (fun a ha => h a (List.mem_cons_of_mem c ha))]
    simp

/-- `dropWhile` swallows a fully-satisfying prefix. -/
theorem dropWhile_append_of_all {A : List Char} (B : List Char)
    (h : ∀ a ∈ A, p a = true) :
    (A ++ B).dropWhile p = B.dropWhile p := by
  induction A with
  | nil => rfl
  | cons c t ih =>
    rw [List.cons_append, List.dropWhile_cons,
      h c (List.mem_cons_self c t), if_pos rfl,
      ih (fun a ha => h a (List.mem_cons_of_mem c ha))]

/-- `dropWhile` stops inside a prefix it does not fully swallow. -/
theorem dropWhile_append_of_ne_nil {A : List Char} (B : List Char)
    (h : A.dropWhile p ≠ []) :
    (A ++ B).dropWhile p = A.dropWhile p ++ B := by
  induction A with
  | nil => exact absurd rfl h
  | cons c t ih =>
    rw [List.dropWhile_cons] at h ⊢
    rw [List.cons_append, List.dropWhile_cons]
    cases hc : p c with
    | true =>
      rw [hc] at h
      simp only [if_pos rfl] at h ⊢
      exact ih h
    | false =>
      simp [hc]

/-- Nothing satisfying is left at the head after `dropWhile`. -/
theorem takeWhile_dropWhile_nil (l : List Char) :
    (l.dropWhile p).takeWhile p = [] := by
  induction l with
  | nil => rfl
  | cons c t ih =>
    rw [List.dropWhile_cons]
    cases hc : p c with
    | true => simpa [hc] using ih
    | false => simp [List.takeWhile_cons, hc]

/-- The head of a nonempty `dropWhile` fails the predicate. -/
theorem head_dropWhile_false {l : List Char} {c : Char} {cs : List Char}
    (h : l.dropWhile p = c :: cs) : p c = false := by
  induction l with
  | nil => exact absurd h (by simp)
  | cons a t ih =>
    rw [List.dropWhile_cons] at h
    cases ha : p a with
    | true =>
      rw [ha] at h
      simp only [if_pos rfl] at h
      exact ih h
    | false =>
      rw [ha] at h
      simp only [Bool.false_eq_true, if_false] at h
      injection h with h1 _
      rw [← h1]
      exact ha

/-- `dropWhile` is idempotent. -/
theorem dropWhile_dropWhile (l : List Char) :
    (l.dropWhile p).dropWhile p = l.dropWhile p := by
  cases hd : l.dropWhile p with
  | nil => rfl
  | cons c cs =>
    rw [List.dropWhile_cons, head_dropWhile_false hd]
    simp

/-- Members of `dropWhile` are members. -/
theorem mem_of_mem_dropWhile {l : List Char} {a : Char}
    (h : a ∈ l.dropWhile p) : a ∈ l := by
  have hl := List.takeWhile_append_dropWhile p l
  rw [← hl]
  exact List.mem_append_right _ h

/-- Unfolding equation for `pyRstrip` at a cons cell. -/
theorem pyRstrip_cons (c : Char) (t : PyStr) :
    pyRstrip (c :: t) =
      if pyRstrip t = [] then (if isPySpace c then [] else [c])
      else c :: pyRstrip t := by
  unfold pyRstrip
  rw [List.reverse_cons]
  cases hd : t.reverse.dropWhile isPySpace with
  | nil =>
    rw [if_pos (List.reverse_nil)]
    have hall : ∀ a ∈ t.reverse, isPySpace a = true :=
      List.dropWhile_eq_nil_iff.mp hd
    rw [dropWhile_append_of_all [c] hall]
    cases hc : isPySpace c with
    | true => simp [List.dropWhile_cons, hc]
    | false => simp [List.dropWhile_cons, hc]
  | cons d ds =>
    rw [if_neg (by simp)]
    rw [dropWhile_append_of_ne_nil [c] (by rw [hd]; simp), hd]
    simp [pyRstrip, hd]

/-- `pyRstrip l` is empty exactly when the whole line is whitespace. -/
theorem pyRstrip_eq_nil_iff (l : PyStr) :
    pyRstrip l = [] ↔ ∀ a ∈ l, isPySpace a = true := by
  unfold pyRstrip
  constructor
  · intro h a ha
    have : l.reverse.dropWhile isPySpace = [] := by
      have := congrArg List.reverse h
      simpa using this
    exact List.dropWhile_eq_nil_iff.mp this a (List.mem_reverse.mpr ha)
  · intro h
    have : l.reverse.dropWhile isPySpace = [] :=
      List.dropWhile_eq_nil_iff.mpr (fun a ha => h a (List.mem_reverse.mp ha))
    rw [this]
    rfl

/-- `pyRstrip` is idempotent. -/
theorem pyRstrip_idem (l : PyStr) : pyRstrip (pyRstrip l) = pyRstrip l := by
  unfold pyRstrip
  rw [List.reverse_reverse, dropWhile_dropWhile]

/-- Members of `pyRstrip l` are members of `l`. -/
theorem mem_of_mem_pyRstrip {l : PyStr} {a : Char} (h : a ∈ pyRstrip l) : a ∈ l := by
  unfold pyRstrip at h
  rw [List.mem_reverse] at h
  exact List.mem_reverse.mp (mem_of_mem_dropWhile h)

/-- A line with a non-whitespace character keeps one after `pyRstrip`. -/
theorem pyRstrip_not_blank {l : PyStr} (h : l.all isPySpace = false) :
    pyRstrip l ≠ [] ∧ (pyRstrip l).all isPySpace = false := by
  induction l with
  | nil => simp at h
  | cons c t ih =>
    rw [List.all_cons, Bool.and_eq_false_iff] at h
    rw [pyRstrip_cons]
    by_cases ht : pyRstrip t = []
    · have htall : ∀ a ∈ t, isPySpace a = true := (pyRstrip_eq_nil_iff t).mp ht
      have hc : isPySpace c = false := by
        rcases h with h | h
        · exact h
        · exact absurd (List.all_eq_true.mpr htall) (by rw [h]; simp)
      rw [if_pos ht, if_neg (by rw [hc]; simp)]
      simp [hc]
    · rw [if_neg ht]
      rcases h with h | h
      · refine ⟨by simp, ?_⟩
        rw [List.all_cons, h]
        rfl
      · obtain ⟨hne, hall⟩ := ih h
        refine ⟨by simp, ?_⟩
        rw [List.all_cons, hall]
        simp

/-- `pyRstrip` keeps the leading whitespace of a non-blank line intact. -/
theorem takeWhile_pyRstrip {l : PyStr} (h : l.all isPySpace = false) :
    (pyRstrip l).takeWhile isPySpace = l.takeWhile isPySpace := by
  induction l with
  | nil => simp at h
  | cons c t ih =>
    rw [List.all_cons, Bool.and_eq_false_iff] at h
    rw [pyRstrip_cons]
    by_cases ht : pyRstrip t = []
    · have htall : ∀ a ∈ t, isPySpace a = true := (pyRstrip_eq_nil_iff t).mp ht
      have hc : isPySpace c = false := by
        rcases h with h | h
        · exact h
        · exact absurd (List.all_eq_true.mpr htall) (by rw [h]; simp)
      rw [if_pos ht, if_neg (by rw [hc]; simp)]
      simp [List.takeWhile_cons, hc]
    · rw [if_neg ht]
      cases hc : isPySpace c with
      | false => simp [List.takeWhile_cons, hc]
      | true =>
        have hta : t.all isPySpace = false := by
          rcases h with h | h
          · rw [h] at hc; exact absurd hc (by simp)
          · exact h
        rw [List.takeWhile_cons, List.takeWhile_cons, hc]
        simp only [if_pos rfl]
        rw [ih hta]

/-- Blankness (`not line.strip()`) coincides with being all whitespace. -/
theorem isBlank_iff_all (l : PyStr) : isBlank l = l.all isPySpace := by
  unfold isBlank pyStrip
  cases hall : l.all isPySpace with
  | true =>
    have : pyLstrip l = [] ∨ True := Or.inr trivial
    have hls : ∀ a ∈ pyLstrip l, isPySpace a = true := by
      intro a ha
      exact List.all_eq_true.mp hall a (mem_of_mem_dropWhile ha)
    simp [(pyRstrip_eq_nil_iff _).mpr hls]
  | false =>
    have : ∃ a ∈ l, isPySpace a = false := by
      by_contra hno
      push_neg at hno
      have : l.all isPySpace = true := by
        rw [List.all_eq_true]
        intro a ha
        cases hq : isPySpace a with
        | true => rfl
        | false => exact absurd hq (hno a ha)
      rw [this] at hall
      exact absurd hall (by simp)
    obtain ⟨a, hal, haf⟩ := this
    have hl : pyLstrip l ≠ [] := by
      intro hnil
      unfold pyLstrip at hnil
      exact absurd ((List.dropWhile_eq_nil_iff.mp hnil) a hal) (by rw [haf]; simp)
    have hlall : (pyLstrip l).all isPySpace = false := by
      cases hq : (pyLstrip l).all isPySpace with
      | false => rfl
      | true =>
        cases hdl : pyLstrip l with
        | nil => exact absurd hdl hl
        | cons d ds =>
          have hd : isPySpace d = false := head_dropWhile_false hdl
          have : isPySpace d = true :=
            List.all_eq_true.mp hq d (by rw [hdl]; exact List.mem_cons_self d ds)
          rw [hd] at this
          exact absurd this (by simp)
    have := pyRstrip_not_blank hlall
    simp [this.1]

/-- The indent width is the length of the whitespace prefix. -/
theorem indentWidth_eq (l : PyStr) :
    indentWidth l = (l.takeWhile isPySpace).length := by
  unfold indentWidth pyLstrip
  have := congrArg List.length (List.takeWhile_append_dropWhile isPySpace l)
  rw [List.length_append] at this
  omega

/-- Slicing below the indent: what remains of the whitespace prefix. -/
theorem takeWhile_drop {l : PyStr} {m : Nat} (h : m ≤ indentWidth l) :
    (l.drop m).takeWhile isPySpace = (l.takeWhile isPySpace).drop m := by
  rw [indentWidth_eq] at h
  conv =>
    lhs
    rw [← List.takeWhile_append_dropWhile isPySpace l]
  rw [List.drop_append_of_le_length h]
  rw [takeWhile_append_of_all _
    (fun a ha => List.mem_takeWhile_imp (List.mem_of_mem_drop ha))]
  rw [takeWhile_dropWhile_nil]
  simp

/-- Slicing below the indent lowers the indent width by the slice. -/
theorem indentWidth_drop {l : PyStr} {m : Nat} (h : m ≤ indentWidth l) :
    indentWidth (l.drop m) = indentWidth l - m := by
  rw [indentWidth_eq, takeWhile_drop h, List.length_drop, ← indentWidth_eq]

/-- Slicing below the indent of a non-blank line keeps it non-blank. -/
theorem drop_not_blank {l : PyStr} {m : Nat} (h : m ≤ indentWidth l)
    (hb : l.all isPySpace = false) : (l.drop m).all isPySpace = false := by
  cases hq : (l.drop m).all isPySpace with
  | false => rfl
  | true =>
    exfalso
    have hd : l.dropWhile isPySpace ≠ [] := by
      intro hnil
      have hall : l.all isPySpace = true :=
        List.all_eq_true.mpr (List.dropWhile_eq_nil_iff.mp hnil)
      rw [hall] at hb
      exact absurd hb (by simp)
    cases hdl : l.dropWhile isPySpace with
    | nil => exact hd hdl
    | cons d ds =>
      have hdf : isPySpace d = false := head_dropWhile_false hdl
      have hdm : d ∈ l.drop m := by
        rw [indentWidth_eq] at h
        rw [← List.takeWhile_append_dropWhile isPySpace l,
          List.drop_append_of_le_length h, hdl]
        exact List.mem_append_right _ (List.mem_cons_self d ds)
      have := List.all_eq_true.mp hq d hdm
      rw [hdf] at this
      exact absurd this (by simp)

/-- Slicing below the indent of a non-blank line leaves it nonempty. -/
theorem drop_ne_nil {l : PyStr} {m : Nat} (h : m ≤ indentWidth l)
    (hb : l.all isPySpace = false) : l.drop m ≠ [] := by
  intro hnil
  have := drop_not_blank h hb
  rw [hnil] at this
  simp at this

/-- The min-fold is bounded by its initial value. -/
theorem minFold_le_init (ls : List PyStr) :
    ∀ a : Nat, ls.foldl (fun acc line => min acc (indentWidth line)) a ≤ a := by
  induction ls with
  | nil => exact fun a => Nat.le_refl a
  | cons x ls ih =>
    intro a
    rw [List.foldl_cons]
    exact Nat.le_trans (ih (min a (indentWidth x))) (Nat.min_le_left _ _)

/-- The min-fold is bounded by every member's indent. -/
theorem minFold_le_mem (ls : List PyStr) :
    ∀ (a : Nat) (x : PyStr), x ∈ ls →
      ls.foldl (fun acc line => min acc (indentWidth line)) a ≤ indentWidth x := by
  induction ls with
  | nil => intro a x hx; exact absurd hx (by simp)
  | cons y ls ih =>
    intro a x hx
    rw [List.foldl_cons]
    rcases List.mem_cons.mp hx with hx | hx
    · rw [hx]
      exact Nat.le_trans (minFold_le_init ls _) (Nat.min_le_right _ _)
    · exact ih _ x hx

/-- The min-fold value is the initial value or some member's indent. -/
theorem minFold_attained (ls : List PyStr) :
    ∀ a : Nat,
      ls.foldl (fun acc line => min acc (indentWidth line)) a = a ∨
      ∃ x ∈ ls, ls.foldl (fun acc line => min acc (indentWidth line)) a = indentWidth x := by
  induction ls with
  | nil => exact fun a => Or.inl rfl
  | cons y ls ih =>
    intro a
    rw [List.foldl_cons]
    rcases ih (min a (indentWidth y)) with h | ⟨x, hx, h⟩
    · rcases min_choice a (indentWidth y) with hm | hm
      · exact Or.inl (h.trans hm)
      · exact Or.inr ⟨y, List.mem_cons_self y ls, h.trans hm⟩
    · exact Or.inr ⟨x, List.mem_cons_of_mem y hx, h⟩

/-- `minIndentOf` is a lower bound for the indents of `l :: ls`. -/
theorem minIndentOf_le {l : PyStr} {ls : List PyStr} {x : PyStr}
    (hx : x ∈ l :: ls) : minIndentOf l ls ≤ indentWidth x := by
  unfold minIndentOf
  rcases List.mem_cons.mp hx with hx | hx
  · rw [hx]
    exact minFold_le_init ls _
  · exact minFold_le_mem ls _ x hx

/-- `minIndentOf` is attained by some line of `l :: ls`. -/
theorem minIndentOf_attained (l : PyStr) (ls : List PyStr) :
    ∃ x ∈ l :: ls, minIndentOf l ls = indentWidth x := by
  unfold minIndentOf
  rcases minFold_attained ls (indentWidth l) with h | ⟨x, hx, h⟩
  · exact ⟨l, List.mem_cons_self l ls, h⟩
  · exact ⟨x, List.mem_cons_of_mem l hx, h⟩

/-- Every character of every line of `splitlines s` is break-free. -/
theorem splitlines_break_free (s : PyStr) :
    ∀ x ∈ splitlines s, ∀ c ∈ x, isLineBreak c = false := by
  induction s using splitlines.induct with
  | case1 => simp [splitlines]
  | case2 t2 ih =>
    intro x hx
    have hs : splitlines ('\r' :: '\n' :: t2) = [] :: splitlines t2 := rfl
    rw [hs] at hx
    rcases List.mem_cons.mp hx with hx | hx
    · rw [hx]; simp
    · exact ih x hx
  | case3 d t2 hd ih =>
    intro x hx
    have hs : splitlines ('\r' :: d :: t2) = [] :: splitlines (d :: t2) := by
      rw [splitlines.eq_def]
      simp [hd]
    rw [hs] at hx
    rcases List.mem_cons.mp hx with hx | hx
    · rw [hx]; simp
    · exact ih x hx
  | case4 =>
    intro x hx
    have hs : splitlines ['\r'] = [[]] := rfl
    rw [hs] at hx
    rcases List.mem_cons.mp hx with hx | hx
    · rw [hx]; simp
    · exact absurd hx (by simp)
  | case5 c t hc hbrk ih =>
    intro x hx
    rw [splitlines_cons_of_break c t hc hbrk] at hx
    rcases List.mem_cons.mp hx with hx | hx
    · rw [hx]; simp
    · exact ih x hx
  | case6 c t hc hbrk ih =>
    intro x hx
    have hcf : isLineBreak c = false := by
      cases hq : isLineBreak c with
      | false => rfl
      | true => exact absurd hq hbrk
    rw [splitlines_cons_of_not_break c t hcf] at hx
    unfold consHead at hx
    cases hsp : splitlines t with
    | nil =>
      rw [hsp] at hx
      rcases List.mem_cons.mp hx with hx | hx
      · rw [hx]
        intro a ha
        rcases List.mem_cons.mp ha with ha | ha
        · rw [ha]; exact hcf
        · exact absurd ha (by simp)
      · exact absurd hx (by simp)
    | cons l ls =>
      rw [hsp] at hx
      rcases List.mem_cons.mp hx with hx | hx
      · rw [hx]
        intro a ha
        rcases List.mem_cons.mp ha with ha | ha
        · rw [ha]; exact hcf
        · exact ih l (by rw [hsp]; exact List.mem_cons_self l ls) a ha
      · exact ih x (by rw [hsp]; exact List.mem_cons_of_mem l hx)

/-- `splitlines` cuts exactly at an appended newline when the first part is
break-free. -/
theorem splitlines_append_newline {l : PyStr} (rest : PyStr)
    (hl : ∀ c ∈ l, isLineBreak c = false) :
    splitlines (l ++ '\n' :: rest) = l :: splitlines rest := by
  induction l with
  | nil =>
    rw [List.nil_append]
    exact splitlines_cons_of_break '\n' rest (by decide) (by decide)
  | cons c t ih =>
    have hcf : isLineBreak c = false := hl c (List.mem_cons_self c t)
    rw [List.cons_append, splitlines_cons_of_not_break c _ hcf,
      ih (fun a ha => hl a (List.mem_cons_of_mem c ha))]
    rfl

/-- `splitlines` inverts `"\n".join` on nonempty, break-free lines. -/
theorem splitlines_pyJoinNL (ls : List PyStr) (hne : ls ≠ [])
    (h : ∀ x ∈ ls, x ≠ [] ∧ ∀ c ∈ x, isLineBreak c = false) :
    splitlines (pyJoinNL ls) = ls := by
  induction ls with
  | nil => exact absurd rfl hne
  | cons l ls ih =>
    cases ls with
    | nil =>
      have hl := h l (List.mem_cons_self l [])
      show splitlines (pyJoinNL [l]) = [l]
      unfold pyJoinNL
      exact splitlines_no_break l hl.1 hl.2
    | cons l2 t =>
      have hjoin : pyJoinNL (l :: l2 :: t) = l ++ '\n' :: pyJoinNL (l2 :: t) := rfl
      rw [hjoin,
        splitlines_append_newline _ (h l (List.mem_cons_self l (l2 :: t))).2]
      rw [ih (by simp) (fun x hx => h x (List.mem_cons_of_mem l hx))]

/-- Composed form of `normalizeComments` when some non-blank line remains:
drop the minimum indent from each non-blank line and strip it on the right,
then join with newlines (the intermediate join/split round-trips). -/
theorem normalizeComments_eq (s : PyStr) (l : PyStr) (ls : List PyStr)
    (hne : (splitlines s).filter (fun line => ¬ isBlank line) = l :: ls) :
    normalizeComments s =
      pyJoinNL ((l :: ls).map
        (fun x => pyRstrip (x.drop (minIndentOf l ls)))) := by
  have hmem : ∀ x ∈ l :: ls, x ∈ splitlines s ∧ isBlank x = false := by
    intro x hx
    rw [← hne] at hx
    obtain ⟨h1, h2⟩ := List.mem_filter.mp hx
    refine ⟨h1, ?_⟩
    have := of_decide_eq_true h2
    cases hq : isBlank x with
    | false => rfl
    | true => exact absurd hq this
  have hfacts : ∀ x ∈ l :: ls,
      x.all isPySpace = false ∧ (∀ c ∈ x, isLineBreak c = false) ∧
      minIndentOf l ls ≤ indentWidth x := by
    intro x hx
    obtain ⟨hsp, hbl⟩ := hmem x hx
    refine ⟨?_, splitlines_break_free s x hsp, minIndentOf_le hx⟩
    rw [← isBlank_iff_all]
    exact hbl
  simp only [normalizeComments, hne]
  rw [splitlines_pyJoinNL ((l :: ls).map (List.drop (minIndentOf l ls)))
    (by simp)
    (by
      intro y hy
      obtain ⟨x, hx, hxy⟩ := List.mem_map.mp hy
      obtain ⟨hall, hbrk, hle⟩ := hfacts x hx
      subst hxy
      exact ⟨drop_ne_nil hle hall, fun c hc => hbrk c (List.drop_subset _ _ hc)⟩)]
  rw [List.map_map]
  rfl

/-- Claim C8.  The comment extractor's post-processing (drop blank lines,
remove the minimum common leading-whitespace width, strip trailing
whitespace per line) is idempotent: normalizing already-normalized text
changes nothing, for every input string. -/
theorem normalizeComments_idempotent (s : PyStr) :
    normalizeComments (normalizeComments s) = normalizeComments s := by
  cases hne : (splitlines s).filter (fun line => ¬ isBlank line) with
  | nil =>
    have h1 : normalizeComments s = [] := by simp only [normalizeComments, hne]
    rw [h1]
    rfl
  | cons l ls =>
    have h1 := normalizeComments_eq s l ls hne
    have hmem : ∀ x ∈ l :: ls, x ∈ splitlines s ∧ isBlank x = false := by
      intro x hx
      rw [← hne] at hx
      obtain ⟨ha, hb⟩ := List.mem_filter.mp hx
      refine ⟨ha, ?_⟩
      have := of_decide_eq_true hb
      cases hq : isBlank x with
      | false => rfl
      | true => exact absurd hq this
    have hfacts : ∀ x ∈ l :: ls,
        x.all isPySpace = false ∧ (∀ c ∈ x, isLineBreak c = false) ∧
        minIndentOf l ls ≤ indentWidth x := by
      intro x hx
      obtain ⟨hsp, hbl⟩ := hmem x hx
      refine ⟨?_, splitlines_break_free s x hsp, minIndentOf_le hx⟩
      rw [← isBlank_iff_all]
      exact hbl
    -- facts about the output lines
    have hout : ∀ y ∈ (l :: ls).map
        (fun x => pyRstrip (x.drop (minIndentOf l ls))),
        y ≠ [] ∧ y.all isPySpace = false ∧ (∀ c ∈ y, isLineBreak c = false) := by
      intro y hy
      obtain ⟨x, hx, hxy⟩ := List.mem_map.mp hy
      obtain ⟨hall, hbrk, hle⟩ := hfacts x hx
      subst hxy
      have hdall : (x.drop (minIndentOf l ls)).all isPySpace = false :=
        drop_not_blank hle hall
      obtain ⟨hrne, hrall⟩ := pyRstrip_not_blank hdall
      exact ⟨hrne, hrall,
        fun c hc => hbrk c (List.drop_subset _ _ (mem_of_mem_pyRstrip hc))⟩
    have hsplit2 : splitlines (normalizeComments s) =
        (l :: ls).map (fun x => pyRstrip (x.drop (minIndentOf l ls))) := by
      rw [h1]
      exact splitlines_pyJoinNL _ (by simp) (fun y hy => ⟨(hout y hy).1, (hout y hy).2.2⟩)
    have hfilter2 : (splitlines (normalizeComments s)).filter
        (fun line => ¬ isBlank line) =
        (l :: ls).map (fun x => pyRstrip (x.drop (minIndentOf l ls))) := by
      rw [hsplit2]
      rw [List.filter_eq_self.mpr]
      intro y hy
      have := (hout y hy).2.1
      rw [decide_eq_true_eq, isBlank_iff_all, this]
      simp
    rw [List.map_cons] at hfilter2
    have h2 := normalizeComments_eq (normalizeComments s) _ _ hfilter2
    -- the second pass finds minimum indent 0
    have hmin0 : minIndentOf (pyRstrip (l.drop (minIndentOf l ls)))
        (ls.map (fun x => pyRstrip (x.drop (minIndentOf l ls)))) = 0 := by
      obtain ⟨x, hx, hxmin⟩ := minIndentOf_attained l ls
      obtain ⟨hall, hbrk, hle⟩ := hfacts x hx
      have hw : indentWidth (pyRstrip (x.drop (minIndentOf l ls))) = 0 := by
        rw [indentWidth_eq, takeWhile_pyRstrip (drop_not_blank hle hall),
          ← indentWidth_eq, indentWidth_drop hle, ← hxmin]
        omega
      have hmemx : pyRstrip (x.drop (minIndentOf l ls)) ∈
          pyRstrip (l.drop (minIndentOf l ls)) ::
            ls.map (fun x => pyRstrip (x.drop (minIndentOf l ls))) := by
        rcases List.mem_cons.mp hx with hx | hx
        · rw [hx]
          exact List.mem_cons_self _ _
        · exact List.mem_cons_of_mem _ (List.mem_map.mpr ⟨x, hx, rfl⟩)
      have := minIndentOf_le hmemx
      omega
    rw [h2, hmin0]
    simp only [List.map_cons] at h1 ⊢
    rw [h1]
    have hgc : pyRstrip ((pyRstrip (l.drop (minIndentOf l ls))).drop 0) =
        pyRstrip (l.drop (minIndentOf l ls)) := by
      rw [List.drop_zero, pyRstrip_idem]
    have hgrest : (ls.map (fun x => pyRstrip (x.drop (minIndentOf l ls)))).map
        (fun y => pyRstrip (y.drop 0)) =
        ls.map (fun x => pyRstrip (x.drop (minIndentOf l ls))) := by
      rw [List.map_map]
      apply List.map_congr_left
      intro x _
      simp only [Function.comp]
      rw [List.drop_zero, pyRstrip_idem]
    rw [hgc, hgrest]

end NormalizeLemmas

end SqlUnit
